import Mathlib

/-
Verification of the window-registry core of pawel22222/calc-app.

Shallow embedding of:
  - src/context/AppsContext.tsx  (window registry: state, z-order, actions)
  - App.tsx                      (rendering dispatcher: minimize-toggle gesture)

The registry state is the pair of React state cells
  openedApps : WindowApp[]            (useState([]))
  focusedWindowId : string | null     (useState(null))
plus a counter modelling the supply of fresh uuidv4 identifiers.  Every
registry action runs synchronously in response to one UI event, so each
action is embedded as a pure state transition.  JavaScript semantics that
matter are kept: `if (!id) return` in increaseZIndex tests *falsiness* of
a `string | null`, which is true for `null` and for the empty string; and
inside one event handler the callbacks read `openedApps`/`focusedWindowId`
from the render-time closure (relevant for openApp, which appends the new
window and then re-assigns its zIndex using the biggest zIndex of the
*pre-append* list).
-/

namespace CalcApp

/-- App kinds: the `WindowAppTypes` union `'calculator' | 'tasks' | 'other-app'`. -/
inductive WindowAppTypes where
  | calculator
  | tasks
  | otherApp
deriving DecidableEq

/-- Minimum window size, the `minSize {width, height}` record (CSS strings). -/
structure MinSize where
  width : String
  height : String
deriving DecidableEq

/-- One open window: `WindowProps` (id, type, flags, zIndex) merged with the
type-specific `AppProps` (iconSrc, displayName, minSize). -/
structure WindowApp where
  id : String
  type : WindowAppTypes
  isFullscreen : Bool
  isMinimalize : Bool
  zIndex : Nat
  iconSrc : String
  displayName : String
  minSize : MinSize
deriving DecidableEq

/-- The registry's state: the two React state cells of AppsContextProvider,
plus `nextId`, a counter modelling the fresh-uuid supply of `uuidv4()`
(each generated identifier is distinct from all earlier ones). -/
structure RegistryState where
  openedApps : List WindowApp
  focusedWindowId : Option String
  nextId : Nat
deriving DecidableEq

/-- Modelled fresh-identifier supply standing in for `uuidv4()`: the n-th
generated id is the non-empty string "a…a" of length n+1, so distinct calls
yield distinct, never-empty identifiers. -/
def freshId (n : Nat) : String := String.mk (List.replicate (n + 1) 'a')

/-- Initial registry state: `useState<WindowApp[]>([])` and
`useState<string | null>(null)`. -/
def init : RegistryState := { openedApps := [], focusedWindowId := none, nextId := 0 }

/-- AppsContext.tsx lines 26-33: `openedApps.reduce((acc, {zIndex}) =>
acc < zIndex ? zIndex : acc, 0)` — left fold with accumulator 0. -/
def getBiggestZIndex (apps : List WindowApp) : Nat :=
  apps.foldl (fun acc w => if acc < w.zIndex then w.zIndex else acc) 0

/-- AppsContext.tsx lines 35-50, `increaseZIndex(id)`: `if (!id) return`
(JS falsiness: null or the empty string short-circuits), else map over the
windows setting `zIndex = biggestZIndex + 1` on every window whose id
matches. -/
def increaseZIndex (id : Option String) (s : RegistryState) : RegistryState :=
  match id with
  | none => s
  | some i =>
    if i = "" then s
    else
      { s with openedApps := s.openedApps.map (fun w =>
          if w.id = i then { w with zIndex := getBiggestZIndex s.openedApps + 1 } else w) }

/-- AppsContext.tsx lines 52-97, `createApp(type)`: type-indexed AppProps
table merged with fresh id, the given type, both flags false, and
`zIndex = biggestZIndex + 1`. -/
def createApp (type : WindowAppTypes) (s : RegistryState) : WindowApp :=
  let biggestZIndex := getBiggestZIndex s.openedApps
  match type with
  | .calculator =>
    { id := freshId s.nextId, type := type, isFullscreen := false, isMinimalize := false,
      zIndex := biggestZIndex + 1, iconSrc := "./calc-icon.png", displayName := "Calculator",
      minSize := { width := "420px", height := "600px" } }
  | .tasks =>
    { id := freshId s.nextId, type := type, isFullscreen := false, isMinimalize := false,
      zIndex := biggestZIndex + 1, iconSrc := "./tasks-icon.png", displayName := "Tasks",
      minSize := { width := "600px", height := "420px" } }
  | .otherApp =>
    { id := freshId s.nextId, type := type, isFullscreen := false, isMinimalize := false,
      zIndex := biggestZIndex + 1, iconSrc := "./vite.svg", displayName := "Other App",
      minSize := { width := "420px", height := "100px" } }

/-- AppsContext.tsx lines 99-105, `handleSetFocusedWindowId(id)`:
`increaseZIndex(id); setFocusedWindowId(id)`. -/
def handleSetFocusedWindowId (id : Option String) (s : RegistryState) : RegistryState :=
  { increaseZIndex id s with focusedWindowId := id }

/-- AppsContext.tsx lines 107-114, `openApp(type)`: create the new window,
append it, then `handleSetFocusedWindowId(newApp.id)`.  Inside this single
event handler, `increaseZIndex` computes `getBiggestZIndex` from the
render-time closure over `openedApps`, which does NOT yet contain the
appended window — so the re-assigned zIndex equals the one `createApp`
already gave it (pre-append max + 1).  The functional `setOpenedApps`
updater, by contrast, does see the appended window. -/
def openApp (type : WindowAppTypes) (s : RegistryState) : RegistryState :=
  { openedApps := (s.openedApps ++ [createApp type s]).map (fun w =>
      if w.id = (createApp type s).id then
        { w with zIndex := getBiggestZIndex s.openedApps + 1 } else w),
    focusedWindowId := some (createApp type s).id,
    nextId := s.nextId + 1 }

/-- AppsContext.tsx lines 116-118, `closeApp(id)`:
`prev.filter((app) => app.id !== id)`. -/
def closeApp (id : String) (s : RegistryState) : RegistryState :=
  { s with openedApps := s.openedApps.filter (fun w => w.id != id) }

/-- AppsContext.tsx lines 120-122, `closeAllApps()`: `setOpenedApps([])`. -/
def closeAllApps (s : RegistryState) : RegistryState :=
  { s with openedApps := [] }

/-- AppsContext.tsx lines 124-140, `setIsMinimalize(id, isMinimalize)`: map
setting the flag on every matching window; inside the matching branch,
whenever `id === focusedWindowId`, `setFocusedWindowId(null)` runs — note
the source clears focus regardless of the boolean being set.  Focus is
therefore cleared iff some window matches `id` and `id = focusedWindowId`. -/
def setIsMinimalize (id : String) (isMinimalize : Bool) (s : RegistryState) : RegistryState :=
  { s with
    openedApps := s.openedApps.map (fun w =>
      if w.id = id then { w with isMinimalize := isMinimalize } else w),
    focusedWindowId :=
      if (∃ w ∈ s.openedApps, w.id = id) ∧ s.focusedWindowId = some id then none
      else s.focusedWindowId }

/-- AppsContext.tsx lines 142-151, `setIsFullscreen(id, isFullscreen)`: map
setting the flag on every matching window; no effect on focus. -/
def setIsFullscreen (id : String) (isFullscreen : Bool) (s : RegistryState) : RegistryState :=
  { s with openedApps := s.openedApps.map (fun w =>
      if w.id = id then { w with isFullscreen := isFullscreen } else w) }

/-- App.tsx lines 48-58, `minimalizedAppOnClick(id, isMinimalize)`: the
dispatcher's minimize-toggle gesture, a composition of primitive actions.
The sequential composition is faithful: the second action's stale closure
reads only `getBiggestZIndex`, which `setIsMinimalize` leaves unchanged
(it never touches zIndex), and `setIsMinimalize` runs first so its closure
reads are current. -/
def minimalizedAppOnClick (id : String) (isMinimalize : Bool) (s : RegistryState) :
    RegistryState :=
  if isMinimalize then
    handleSetFocusedWindowId (some id) (setIsMinimalize id false s)
  else if s.focusedWindowId = some id then
    handleSetFocusedWindowId none (setIsMinimalize id true s)
  else
    handleSetFocusedWindowId (some id) s

/-- The registry's write surface: one constructor per action of
AppsActions (with `handleSetFocusedWindowId` written `focus`). -/
inductive Action where
  | openApp (type : WindowAppTypes)
  | closeApp (id : String)
  | closeAllApps
  | setIsMinimalize (id : String) (v : Bool)
  | setIsFullscreen (id : String) (v : Bool)
  | focus (id : Option String)
deriving DecidableEq

/-- One registry action as a state transition. -/
def step (s : RegistryState) : Action → RegistryState
  | .openApp t => openApp t s
  | .closeApp id => closeApp id s
  | .closeAllApps => closeAllApps s
  | .setIsMinimalize id v => setIsMinimalize id v s
  | .setIsFullscreen id v => setIsFullscreen id v s
  | .focus id => handleSetFocusedWindowId id s

/-- Run a sequence of actions from a given state. -/
def runFrom (s : RegistryState) (acts : List Action) : RegistryState :=
  acts.foldl step s

/-- Run a sequence of actions from the empty registry. -/
def run (acts : List Action) : RegistryState := runFrom init acts

/-- The React context value read by consumers: the registry's read surface
(actions omitted — they are the functions above). -/
structure AppsContextValue where
  openedApps : List WindowApp
  focusedWindowId : Option String
deriving DecidableEq

/-- AppsContext.tsx lines 172-180, `useApps()`: reads the context (whose
default, outside any provider, is `null`); `if (!appsContext) throw new
Error('useApps has to be used within <AppsContext.Provider>')`; else
returns the context value.  The throw is embedded as `Except.error`. -/
def useApps : Option AppsContextValue → Except String AppsContextValue
  | none => Except.error "useApps has to be used within <AppsContext.Provider>"
  | some ctx => Except.ok ctx

/-- Is an action an openApp or a focus call (the sequences claim C1 ranges
over)? -/
def isOpenFocus : Action → Bool
  | .openApp _ => true
  | .focus _ => true
  | _ => false

/-- The zIndex values an action assigns, per the code paths: `openApp`
always assigns `biggest + 1` to the new window (createApp assigns it and
the follow-up increaseZIndex re-writes the same value, one assignment per
the spec's reading); `focus (some i)` assigns `biggest + 1` exactly when
`i` survives the falsiness guard and matches an open window; every other
action assigns no zIndex. -/
def assignedBy (s : RegistryState) : Action → List Nat
  | .openApp _ => [getBiggestZIndex s.openedApps + 1]
  | .focus none => []
  | .focus (some i) =>
    if i ≠ "" ∧ ∃ w ∈ s.openedApps, w.id = i then [getBiggestZIndex s.openedApps + 1] else []
  | _ => []

/-- All zIndex values assigned along a run, in order. -/
def traceAssigned : RegistryState → List Action → List Nat
  | _, [] => []
  | s, a :: rest => assignedBy s a ++ traceAssigned (step s a) rest

/-- Well-formedness of a registry state: every open window's id comes from
the fresh-id supply below the counter, open ids are pairwise distinct, and
open zIndex values are pairwise distinct. -/
def WF (s : RegistryState) : Prop :=
  (∀ w ∈ s.openedApps, ∃ k, k < s.nextId ∧ w.id = freshId k) ∧
  (s.openedApps.map (fun w => w.id)).Nodup ∧
  (s.openedApps.map (fun w => w.zIndex)).Nodup

/-- Guard for the amended C4: along the run, every non-null focus call
targets a currently open window, no closeApp closes the currently focused
window, and closeAllApps only runs with focus already null. -/
def focusSafe : RegistryState → List Action → Bool
  | _, [] => true
  | s, a :: rest =>
    (match a with
     | .focus (some i) => s.openedApps.any (fun w => w.id == i)
     | .closeApp i => s.focusedWindowId != some i
     | .closeAllApps => s.focusedWindowId == none
     | _ => true) && focusSafe (step s a) rest

/-- Guard for the amended C5: along the run, no focus call targets the id
of a window that is minimized at that point. -/
def noFocusMinimized : RegistryState → List Action → Bool
  | _, [] => true
  | s, a :: rest =>
    (match a with
     | .focus (some i) => s.openedApps.all (fun w => w.id != i || !w.isMinimalize)
     | _ => true) && noFocusMinimized (step s a) rest

/-! Helper lemmas about the z-order fold `getBiggestZIndex`. -/

/-- The accumulator never decreases along the fold. -/
theorem bigAux_le (l : List WindowApp) :
    ∀ a : Nat, a ≤ l.foldl (fun acc w => if acc < w.zIndex then w.zIndex else acc) a := by
  induction l with
  | nil => intro a; exact le_refl a
  | cons x t ih =>
    intro a
    simp only [List.foldl_cons]
    refine le_trans ?_ (ih _)
    by_cases h : a < x.zIndex
    · rw [if_pos h]; exact Nat.le_of_lt h
    · rw [if_neg h]

/-- Every member's zIndex is bounded by the fold's result. -/
theorem bigAux_mem_le (l : List WindowApp) :
    ∀ a : Nat, ∀ w ∈ l,
      w.zIndex ≤ l.foldl (fun acc w => if acc < w.zIndex then w.zIndex else acc) a := by
  induction l with
  | nil => intro a w hw; simp at hw
  | cons x t ih =>
    intro a w hw
    simp only [List.foldl_cons]
    rcases List.mem_cons.mp hw with h | h
    · subst h
      refine le_trans ?_ (bigAux_le t _)
      by_cases hx : a < w.zIndex
      · rw [if_pos hx]
      · rw [if_neg hx]; omega
    · exact ih _ w h

/-- The fold's result is the accumulator or some member's zIndex. -/
theorem bigAux_attained (l : List WindowApp) :
    ∀ a : Nat,
      l.foldl (fun acc w => if acc < w.zIndex then w.zIndex else acc) a = a ∨
      ∃ w ∈ l, l.foldl (fun acc w => if acc < w.zIndex then w.zIndex else acc) a = w.zIndex := by
  induction l with
  | nil => intro a; exact Or.inl rfl
  | cons x t ih =>
    intro a
    simp only [List.foldl_cons]
    by_cases hx : a < x.zIndex
    · rw [if_pos hx]
      rcases ih x.zIndex with h | ⟨w, hw, h⟩
      · exact Or.inr ⟨x, List.mem_cons_self x t, h⟩
      · exact Or.inr ⟨w, List.mem_cons_of_mem x hw, h⟩
    · rw [if_neg hx]
      rcases ih a with h | ⟨w, hw, h⟩
      · exact Or.inl h
      · exact Or.inr ⟨w, List.mem_cons_of_mem x hw, h⟩

/-- The fold's result is bounded by any common bound of the accumulator and
the members. -/
theorem bigAux_le_of (l : List WindowApp) (c : Nat) :
    ∀ a : Nat, a ≤ c → (∀ w ∈ l, w.zIndex ≤ c) →
      l.foldl (fun acc w => if acc < w.zIndex then w.zIndex else acc) a ≤ c := by
  induction l with
  | nil => intro a ha _; exact ha
  | cons x t ih =>
    intro a ha hmem
    simp only [List.foldl_cons]
    refine ih _ ?_ (fun w hw => hmem w (List.mem_cons_of_mem x hw))
    by_cases hx : a < x.zIndex
    · rw [if_pos hx]; exact hmem x (List.mem_cons_self x t)
    · rw [if_neg hx]; exact ha

/-- Every open window's zIndex is at most the biggest zIndex. -/
theorem getBiggestZIndex_le (l : List WindowApp) (w : WindowApp) (hw : w ∈ l) :
    w.zIndex ≤ getBiggestZIndex l :=
  bigAux_mem_le l 0 w hw

/-- On a non-empty list the biggest zIndex is attained by some window. -/
theorem getBiggestZIndex_attained (l : List WindowApp) (h : l ≠ []) :
    ∃ w ∈ l, getBiggestZIndex l = w.zIndex := by
  rcases bigAux_attained l 0 with h0 | hmem
  · rcases List.exists_mem_of_ne_nil l h with ⟨w, hw⟩
    have hle := getBiggestZIndex_le l w hw
    unfold getBiggestZIndex at *
    rw [h0] at hle ⊢
    exact ⟨w, hw, Nat.le_antisymm (Nat.le_zero.mp hle).ge hle⟩
  · exact hmem

/-- The biggest zIndex respects any upper bound on the members. -/
theorem getBiggestZIndex_le_of (l : List WindowApp) (c : Nat)
    (h : ∀ w ∈ l, w.zIndex ≤ c) : getBiggestZIndex l ≤ c :=
  bigAux_le_of l c 0 (Nat.zero_le c) h

/-- Appending a window with zIndex `biggest + 1` bumps the biggest by one. -/
theorem getBiggestZIndex_append (l : List WindowApp) (x : WindowApp)
    (h : x.zIndex = getBiggestZIndex l + 1) :
    getBiggestZIndex (l ++ [x]) = getBiggestZIndex l + 1 := by
  unfold getBiggestZIndex at *
  rw [List.foldl_append]
  simp only [List.foldl_cons, List.foldl_nil, h]
  rw [if_pos (Nat.lt_succ_self _)]

/-- Mapping a zIndex-preserving function leaves the biggest zIndex fixed. -/
theorem getBiggestZIndex_map (f : WindowApp → WindowApp)
    (hf : ∀ w, (f w).zIndex = w.zIndex) (l : List WindowApp) :
    getBiggestZIndex (l.map f) = getBiggestZIndex l := by
  unfold getBiggestZIndex
  rw [List.foldl_map]
  simp only [hf]

/-! Helper lemmas about the fresh-identifier supply. -/

/-- Generated identifiers have length `n + 1`. -/
theorem freshId_length (n : Nat) : (freshId n).length = n + 1 := by
  simp [freshId, String.length]

/-- Distinct counters give distinct identifiers. -/
theorem freshId_injective : Function.Injective freshId := by
  intro m n h
  have h2 := congrArg String.length h
  rw [freshId_length, freshId_length] at h2
  omega

/-- No generated identifier is the empty string. -/
theorem freshId_ne_empty (n : Nat) : freshId n ≠ "" := by
  intro h
  have h2 := congrArg String.length h
  rw [freshId_length] at h2
  simp [String.length] at h2

/-! Generic list helpers for the per-window maps. -/

/-- A map that is the identity on all members is the identity. -/
theorem map_eq_self_of (l : List WindowApp) (g : WindowApp → WindowApp)
    (h : ∀ w ∈ l, g w = w) : l.map g = l := by
  rw [List.map_congr_left h]
  exact List.map_id l

/-- A per-window map that preserves a projection preserves the projected list. -/
theorem map_map_congr {α : Type} (l : List WindowApp) (g : WindowApp → WindowApp)
    (p : WindowApp → α) (h : ∀ w ∈ l, p (g w) = p w) :
    (l.map g).map p = l.map p := by
  rw [List.map_map]
  exact List.map_congr_left (fun w hw => h w hw)

/-- Updating the zIndex to its current value is the identity. -/
theorem update_z_self (x : WindowApp) (v : Nat) (h : x.zIndex = v) :
    { x with zIndex := v } = x := by
  cases x
  simp_all

/-- A zIndex in the image of the raise map is the raised value or an old one. -/
theorem mem_z_raise (l : List WindowApp) (i : String) (b v : Nat)
    (hv : v ∈ ((l.map (fun w => if w.id = i then { w with zIndex := b + 1 } else w)).map
      (fun w => w.zIndex))) :
    v = b + 1 ∨ v ∈ l.map (fun w => w.zIndex) := by
  rcases List.mem_map.mp hv with ⟨w', hw', rfl⟩
  rcases List.mem_map.mp hw' with ⟨w, hw, rfl⟩
  by_cases h : w.id = i
  · rw [if_pos h]
    exact Or.inl rfl
  · rw [if_neg h]
    exact Or.inr (List.mem_map_of_mem _ hw)

/-- Raising the unique window matching `i` keeps the zIndex values pairwise
distinct, when they were distinct and bounded by `b` and ids were distinct. -/
theorem nodup_z_raise (i : String) (b : Nat) :
    ∀ l : List WindowApp, (l.map (fun w => w.id)).Nodup →
      (l.map (fun w => w.zIndex)).Nodup → (∀ w ∈ l, w.zIndex ≤ b) →
      ((l.map (fun w => if w.id = i then { w with zIndex := b + 1 } else w)).map
        (fun w => w.zIndex)).Nodup := by
  intro l
  induction l with
  | nil => intro _ _ _; simp
  | cons x t ih =>
    intro hids hz hle
    simp only [List.map_cons, List.nodup_cons] at hids hz ⊢
    obtain ⟨hxid, hids⟩ := hids
    obtain ⟨hxz, hz⟩ := hz
    by_cases hx : x.id = i
    · rw [if_pos hx]
      have htne : ∀ w ∈ t, w.id ≠ i := by
        intro w hw hc
        apply hxid
        rw [hx, ← hc]
        exact List.mem_map_of_mem _ hw
      have ht : t.map (fun w => if w.id = i then { w with zIndex := b + 1 } else w) = t :=
        map_eq_self_of t _ (fun w hw => if_neg (htne w hw))
      rw [ht]
      refine ⟨?_, hz⟩
      intro hmem
      rcases List.mem_map.mp hmem with ⟨w, hw, hwz⟩
      have := hle w (List.mem_cons_of_mem x hw)
      simp only at hwz
      omega
    · rw [if_neg hx]
      refine ⟨?_, ih hids hz (fun w hw => hle w (List.mem_cons_of_mem x hw))⟩
      intro hmem
      rcases mem_z_raise t i b x.zIndex hmem with h | h
      · have := hle x (List.mem_cons_self x t)
        omega
      · exact hxz h

/-- The zIndex raised to `biggest + 1` on a present id bumps the biggest by
one (the raised window attains it, everything else sits below it). -/
theorem getBiggestZIndex_raise (l : List WindowApp) (i : String)
    (hmem : ∃ w ∈ l, w.id = i) :
    getBiggestZIndex (l.map (fun w =>
      if w.id = i then { w with zIndex := getBiggestZIndex l + 1 } else w)) =
      getBiggestZIndex l + 1 := by
  apply Nat.le_antisymm
  · apply getBiggestZIndex_le_of
    intro w' hw'
    rcases List.mem_map.mp hw' with ⟨w, hw, rfl⟩
    by_cases h : w.id = i
    · rw [if_pos h]
    · rw [if_neg h]
      exact Nat.le_succ_of_le (getBiggestZIndex_le l w hw)
  · rcases hmem with ⟨w, hw, hid⟩
    have hmem2 : ({ w with zIndex := getBiggestZIndex l + 1 }) ∈ l.map (fun w =>
        if w.id = i then { w with zIndex := getBiggestZIndex l + 1 } else w) :=
      List.mem_map.mpr ⟨w, hw, by rw [if_pos hid]⟩
    exact getBiggestZIndex_le _ _ hmem2

/-- Fields of `createApp` that every branch of the type table shares. -/
theorem createApp_id (t : WindowAppTypes) (s : RegistryState) :
    (createApp t s).id = freshId s.nextId := by
  cases t <;> rfl

/-- Every branch of the factory assigns `biggest + 1` as the zIndex. -/
theorem createApp_zIndex (t : WindowAppTypes) (s : RegistryState) :
    (createApp t s).zIndex = getBiggestZIndex s.openedApps + 1 := by
  cases t <;> rfl

/-- Every branch of the factory creates the window un-minimized. -/
theorem createApp_isMinimalize (t : WindowAppTypes) (s : RegistryState) :
    (createApp t s).isMinimalize = false := by
  cases t <;> rfl

/-- On a well-formed state the fresh id matches no existing window, and the
re-assignment writes the zIndex the new window already carries, so `openApp`
is plain append-and-focus. -/
theorem openApp_eq (t : WindowAppTypes) (s : RegistryState) (h : WF s) :
    openApp t s =
      { openedApps := s.openedApps ++ [createApp t s],
        focusedWindowId := some (createApp t s).id,
        nextId := s.nextId + 1 } := by
  obtain ⟨hfresh, _, _⟩ := h
  unfold openApp
  congr 1
  rw [List.map_append]
  have h1 : s.openedApps.map (fun w =>
      if w.id = (createApp t s).id then
        { w with zIndex := getBiggestZIndex s.openedApps + 1 } else w) = s.openedApps := by
    apply map_eq_self_of
    intro w hw
    rw [if_neg]
    rcases hfresh w hw with ⟨k, hk, hkid⟩
    rw [hkid, createApp_id]
    intro hc
    exact absurd (freshId_injective hc) (Nat.ne_of_lt hk)
  have h2 : [createApp t s].map (fun w =>
      if w.id = (createApp t s).id then
        { w with zIndex := getBiggestZIndex s.openedApps + 1 } else w) = [createApp t s] := by
    simp only [List.map_cons, List.map_nil, if_pos]
    rw [update_z_self _ _ (createApp_zIndex t s)]
  rw [h1, h2]

/-- Every registry action preserves well-formedness. -/
theorem WF_step (s : RegistryState) (a : Action) (h : WF s) : WF (step s a) := by
  obtain ⟨hfresh, hids, hz⟩ := h
  cases a with
  | openApp t =>
    rw [step, openApp_eq t s ⟨hfresh, hids, hz⟩]
    refine ⟨?_, ?_, ?_⟩
    · intro w hw
      rcases List.mem_append.mp hw with hw | hw
      · rcases hfresh w hw with ⟨k, hk, hkid⟩
        exact ⟨k, Nat.lt_succ_of_lt hk, hkid⟩
      · rcases List.mem_singleton.mp hw with rfl
        exact ⟨s.nextId, Nat.lt_succ_self _, createApp_id t s⟩
    · rw [List.map_append]
      refine List.Nodup.append hids (List.nodup_singleton _) ?_
      intro x hx1 hx2
      simp only [List.map_cons, List.map_nil, List.mem_singleton] at hx2
      rcases List.mem_map.mp hx1 with ⟨w, hw, rfl⟩
      rcases hfresh w hw with ⟨k, hk, hkid⟩
      rw [hx2, createApp_id] at hkid
      exact absurd (freshId_injective hkid.symm) (Nat.ne_of_lt hk)
    · rw [List.map_append]
      refine List.Nodup.append hz (List.nodup_singleton _) ?_
      intro x hx1 hx2
      simp only [List.map_cons, List.map_nil, List.mem_singleton] at hx2
      rcases List.mem_map.mp hx1 with ⟨w, hw, rfl⟩
      have hle := getBiggestZIndex_le s.openedApps w hw
      rw [hx2, createApp_zIndex] at hle
      omega
  | closeApp i =>
    refine ⟨?_, ?_, ?_⟩
    · intro w hw
      exact hfresh w (List.mem_of_mem_filter hw)
    · exact List.Nodup.sublist (List.Sublist.map _ (List.filter_sublist s.openedApps)) hids
    · exact List.Nodup.sublist (List.Sublist.map _ (List.filter_sublist s.openedApps)) hz
  | closeAllApps =>
    refine ⟨?_, ?_, ?_⟩ <;> simp [step, closeAllApps]
  | setIsMinimalize i v =>
    have hpres : ∀ w : WindowApp,
        ((if w.id = i then { w with isMinimalize := v } else w)).id = w.id ∧
        ((if w.id = i then { w with isMinimalize := v } else w)).zIndex = w.zIndex := by
      intro w; constructor <;> (split <;> rfl)
    simp only [step, setIsMinimalize]
    refine ⟨?_, ?_, ?_⟩
    · intro w hw
      rcases List.mem_map.mp hw with ⟨w0, hw0, rfl⟩
      rw [(hpres w0).1]
      exact hfresh w0 hw0
    · rw [map_map_congr _ _ _ (fun w _ => (hpres w).1)]
      exact hids
    · rw [map_map_congr _ _ _ (fun w _ => (hpres w).2)]
      exact hz
  | setIsFullscreen i v =>
    have hpres : ∀ w : WindowApp,
        ((if w.id = i then { w with isFullscreen := v } else w)).id = w.id ∧
        ((if w.id = i then { w with isFullscreen := v } else w)).zIndex = w.zIndex := by
      intro w; constructor <;> (split <;> rfl)
    simp only [step, setIsFullscreen]
    refine ⟨?_, ?_, ?_⟩
    · intro w hw
      rcases List.mem_map.mp hw with ⟨w0, hw0, rfl⟩
      rw [(hpres w0).1]
      exact hfresh w0 hw0
    · rw [map_map_congr _ _ _ (fun w _ => (hpres w).1)]
      exact hids
    · rw [map_map_congr _ _ _ (fun w _ => (hpres w).2)]
      exact hz
  | focus id =>
    cases id with
    | none => exact ⟨hfresh, hids, hz⟩
    | some i =>
      by_cases hi : i = ""
      · simp only [step, handleSetFocusedWindowId, increaseZIndex, if_pos hi]
        exact ⟨hfresh, hids, hz⟩
      · simp only [step, handleSetFocusedWindowId, increaseZIndex, if_neg hi]
        have hidp : ∀ w : WindowApp,
            ((if w.id = i then
              { w with zIndex := getBiggestZIndex s.openedApps + 1 } else w)).id = w.id := by
          intro w; split <;> rfl
        refine ⟨?_, ?_, ?_⟩
        · intro w hw
          rcases List.mem_map.mp hw with ⟨w0, hw0, rfl⟩
          rw [hidp w0]
          exact hfresh w0 hw0
        · rw [map_map_congr _ _ _ (fun w _ => hidp w)]
          exact hids
        · exact nodup_z_raise i (getBiggestZIndex s.openedApps) s.openedApps hids hz
            (fun w hw => getBiggestZIndex_le s.openedApps w hw)

/-- Well-formedness holds along every run. -/
theorem WF_runFrom (acts : List Action) : ∀ s, WF s → WF (runFrom s acts) := by
  induction acts with
  | nil => intro s h; exact h
  | cons a rest ih =>
    intro s h
    exact ih (step s a) (WF_step s a h)

/-- The empty registry is well-formed. -/
theorem WF_init : WF init := by
  refine ⟨?_, ?_, ?_⟩ <;> simp [init]

/-- Every reachable state is well-formed. -/
theorem WF_run (acts : List Action) : WF (run acts) :=
  WF_runFrom acts init WF_init

/-- An openApp/focus step either assigns nothing and keeps the biggest
zIndex, or assigns `biggest + 1` which becomes the new biggest. -/
theorem step_biggest (s : RegistryState) (a : Action) (ha : isOpenFocus a = true)
    (h : WF s) :
    (assignedBy s a = [] ∧
      getBiggestZIndex (step s a).openedApps = getBiggestZIndex s.openedApps) ∨
    (assignedBy s a = [getBiggestZIndex s.openedApps + 1] ∧
      getBiggestZIndex (step s a).openedApps = getBiggestZIndex s.openedApps + 1) := by
  cases a with
  | openApp t =>
    right
    refine ⟨rfl, ?_⟩
    rw [step, openApp_eq t s h]
    exact getBiggestZIndex_append _ _ (createApp_zIndex t s)
  | closeApp i => simp [isOpenFocus] at ha
  | closeAllApps => simp [isOpenFocus] at ha
  | setIsMinimalize i v => simp [isOpenFocus] at ha
  | setIsFullscreen i v => simp [isOpenFocus] at ha
  | focus id =>
    cases id with
    | none => exact Or.inl ⟨rfl, rfl⟩
    | some i =>
      by_cases hcond : i ≠ "" ∧ ∃ w ∈ s.openedApps, w.id = i
      · right
        refine ⟨by simp only [assignedBy, if_pos hcond], ?_⟩
        obtain ⟨hi, hmem⟩ := hcond
        simp only [step, handleSetFocusedWindowId, increaseZIndex, if_neg hi]
        exact getBiggestZIndex_raise s.openedApps i hmem
      · left
        refine ⟨by simp only [assignedBy, if_neg hcond], ?_⟩
        by_cases hi : i = ""
        · simp only [step, handleSetFocusedWindowId, increaseZIndex, if_pos hi]
        · have hnomem : ∀ w ∈ s.openedApps, w.id ≠ i := by
            intro w hw hc
            exact hcond ⟨hi, w, hw, hc⟩
          simp only [step, handleSetFocusedWindowId, increaseZIndex, if_neg hi]
          rw [map_eq_self_of _ _ (fun w hw => if_neg (hnomem w hw))]

/-- The biggest zIndex never decreases under openApp/focus steps. -/
theorem biggest_mono_step (s : RegistryState) (a : Action) (ha : isOpenFocus a = true)
    (h : WF s) :
    getBiggestZIndex s.openedApps ≤ getBiggestZIndex (step s a).openedApps := by
  rcases step_biggest s a ha h with ⟨_, he⟩ | ⟨_, he⟩ <;> omega

/-- Every zIndex assigned along an openApp/focus run exceeds the biggest
zIndex of the starting state. -/
theorem trace_lower (acts : List Action) :
    ∀ s, WF s → acts.all isOpenFocus = true →
      ∀ v ∈ traceAssigned s acts, getBiggestZIndex s.openedApps < v := by
  induction acts with
  | nil => intro s _ _ v hv; simp [traceAssigned] at hv
  | cons a rest ih =>
    intro s hWF hall v hv
    simp only [List.all_cons, Bool.and_eq_true] at hall
    obtain ⟨ha, hrest⟩ := hall
    simp only [traceAssigned, List.mem_append] at hv
    rcases hv with hv | hv
    · rcases step_biggest s a ha hWF with ⟨he, _⟩ | ⟨he, _⟩
      · rw [he] at hv; simp at hv
      · rw [he] at hv
        rcases List.mem_singleton.mp hv with rfl
        omega
    · have h2 := ih (step s a) (WF_step s a hWF) hrest v hv
      have h3 := biggest_mono_step s a ha hWF
      omega

/-- The zIndex values assigned along an openApp/focus run are strictly
increasing in order of assignment. -/
theorem trace_pairwise (acts : List Action) :
    ∀ s, WF s → acts.all isOpenFocus = true →
      (traceAssigned s acts).Pairwise (· < ·) := by
  induction acts with
  | nil => intro s _ _; simp [traceAssigned]
  | cons a rest ih =>
    intro s hWF hall
    simp only [List.all_cons, Bool.and_eq_true] at hall
    obtain ⟨ha, hrest⟩ := hall
    simp only [traceAssigned]
    rw [List.pairwise_append]
    refine ⟨?_, ih (step s a) (WF_step s a hWF) hrest, ?_⟩
    · rcases step_biggest s a ha hWF with ⟨he, _⟩ | ⟨he, _⟩ <;> rw [he] <;> simp
    · intro x hx y hy
      have hylow := trace_lower rest (step s a) (WF_step s a hWF) hrest y hy
      rcases step_biggest s a ha hWF with ⟨he, hb⟩ | ⟨he, hb⟩
      · rw [he] at hx; simp at hx
      · rw [he] at hx
        rcases List.mem_singleton.mp hx with rfl
        omega

/-- With pairwise-distinct ids, at most one open window carries the focused
id. -/
theorem countP_focus_le_one (s : RegistryState)
    (h : (s.openedApps.map (fun w => w.id)).Nodup) :
    s.openedApps.countP (fun w => s.focusedWindowId == some w.id) ≤ 1 := by
  cases hf : s.focusedWindowId with
  | none =>
    have h0 : s.openedApps.countP (fun w => (none : Option String) == some w.id) = 0 := by
      rw [List.countP_eq_zero]
      intro a _
      simp
    rw [h0]
    exact Nat.zero_le 1
  | some i =>
    have hcount : (s.openedApps.map (fun w => w.id)).count i =
        s.openedApps.countP (fun w => w.id == i) := by
      rw [List.count, List.countP_map]
      rfl
    have hcongr : s.openedApps.countP (fun w => (some i : Option String) == some w.id) =
        s.openedApps.countP (fun w => w.id == i) := by
      refine List.countP_congr ?_
      intro w _
      simp only [beq_iff_eq, Option.some.injEq]
      exact eq_comm
    rw [hcongr, ← hcount]
    exact List.nodup_iff_count_le_one.mp h i

/-- Along a focus-safe run, a non-null focus always refers to an open
window. -/
theorem focusOk_runFrom (acts : List Action) :
    ∀ s, WF s →
      (∀ i, s.focusedWindowId = some i → ∃ w ∈ s.openedApps, w.id = i) →
      focusSafe s acts = true →
      ∀ i, (runFrom s acts).focusedWindowId = some i →
        ∃ w ∈ (runFrom s acts).openedApps, w.id = i := by
  induction acts with
  | nil => intro s _ hok _; exact hok
  | cons a rest ih =>
    intro s hWF hok hsafe
    simp only [focusSafe, Bool.and_eq_true] at hsafe
    obtain ⟨hcond, hrest⟩ := hsafe
    refine ih (step s a) (WF_step s a hWF) ?_ hrest
    cases a with
    | openApp t =>
      intro j hj
      rw [step, openApp_eq t s hWF] at hj
      have hj' : (createApp t s).id = j := by
        have h2 : some (createApp t s).id = some j := hj
        simpa using h2
      rw [step, openApp_eq t s hWF]
      exact ⟨createApp t s, List.mem_append_right _ (List.mem_singleton_self _), hj'⟩
    | closeApp i =>
      intro j hj
      have hne : s.focusedWindowId ≠ some i := by simpa using hcond
      have hj' : s.focusedWindowId = some j := hj
      rcases hok j hj' with ⟨w, hw, hwid⟩
      refine ⟨w, ?_, hwid⟩
      simp only [step, closeApp]
      rw [List.mem_filter]
      refine ⟨hw, ?_⟩
      simp only [bne_iff_ne, ne_eq]
      intro hc
      apply hne
      rw [hj', ← hwid, hc]
    | closeAllApps =>
      intro j hj
      have h0 : s.focusedWindowId = none := by simpa using hcond
      have hj' : s.focusedWindowId = some j := hj
      rw [h0] at hj'
      exact absurd hj' (by simp)
    | setIsMinimalize i v =>
      intro j hj
      simp only [step, setIsMinimalize] at hj ⊢
      by_cases hc : (∃ w ∈ s.openedApps, w.id = i) ∧ s.focusedWindowId = some i
      · rw [if_pos hc] at hj
        exact absurd hj (by simp)
      · rw [if_neg hc] at hj
        rcases hok j hj with ⟨w, hw, hwid⟩
        exact ⟨if w.id = i then { w with isMinimalize := v } else w,
          List.mem_map_of_mem _ hw, by split <;> exact hwid⟩
    | setIsFullscreen i v =>
      intro j hj
      have hj' : s.focusedWindowId = some j := hj
      rcases hok j hj' with ⟨w, hw, hwid⟩
      simp only [step, setIsFullscreen]
      exact ⟨if w.id = i then { w with isFullscreen := v } else w,
        List.mem_map_of_mem _ hw, by split <;> exact hwid⟩
    | focus id =>
      cases id with
      | none =>
        intro j hj
        have hj' : (none : Option String) = some j := hj
        exact absurd hj' (by simp)
      | some i =>
        intro j hj
        have hj' : i = j := by
          have h2 : (some i : Option String) = some j := hj
          simpa using h2
        have hex : ∃ w ∈ s.openedApps, w.id = i := by
          rcases List.any_eq_true.mp hcond with ⟨w, hw, hwi⟩
          exact ⟨w, hw, by simpa using hwi⟩
        rcases hex with ⟨w, hw, hwi⟩
        subst hj'
        simp only [step, handleSetFocusedWindowId, increaseZIndex]
        by_cases hi : i = ""
        · rw [if_pos hi]
          exact ⟨w, hw, hwi⟩
        · rw [if_neg hi]
          exact ⟨if w.id = i then
              { w with zIndex := getBiggestZIndex s.openedApps + 1 } else w,
            List.mem_map_of_mem _ hw, by split <;> exact hwi⟩

/-- Along a run that never focuses a then-minimized window, no minimized
window is ever the focused window. -/
theorem minFree_runFrom (acts : List Action) :
    ∀ s, WF s →
      (∀ w ∈ s.openedApps, w.isMinimalize = true → s.focusedWindowId ≠ some w.id) →
      noFocusMinimized s acts = true →
      ∀ w ∈ (runFrom s acts).openedApps, w.isMinimalize = true →
        (runFrom s acts).focusedWindowId ≠ some w.id := by
  induction acts with
  | nil => intro s _ hmf _; exact hmf
  | cons a rest ih =>
    intro s hWF hmf hsafe
    simp only [noFocusMinimized, Bool.and_eq_true] at hsafe
    obtain ⟨hcond, hrest⟩ := hsafe
    refine ih (step s a) (WF_step s a hWF) ?_ hrest
    cases a with
    | openApp t =>
      intro w hw hwmin
      rw [step, openApp_eq t s hWF] at hw ⊢
      rcases List.mem_append.mp hw with hw | hw
      · obtain ⟨hfresh, h2, h3⟩ := hWF
        rcases hfresh w hw with ⟨k, hk, hkid⟩
        intro hc
        have hc2 : some (createApp t s).id = some w.id := hc
        have hc3 : (createApp t s).id = w.id := by simpa using hc2
        rw [createApp_id, hkid] at hc3
        exact absurd (freshId_injective hc3) (Nat.ne_of_gt hk)
      · rcases List.mem_singleton.mp hw with rfl
        rw [createApp_isMinimalize] at hwmin
        exact absurd hwmin (by simp)
    | closeApp i =>
      intro w hw hwmin
      simp only [step, closeApp] at hw ⊢
      exact hmf w (List.mem_of_mem_filter hw) hwmin
    | closeAllApps =>
      intro w hw hwmin
      simp only [step, closeAllApps] at hw
      simp at hw
    | setIsMinimalize i v =>
      intro w hw hwmin
      simp only [step, setIsMinimalize] at hw ⊢
      rcases List.mem_map.mp hw with ⟨w0, hw0, rfl⟩
      by_cases hc : (∃ w ∈ s.openedApps, w.id = i) ∧ s.focusedWindowId = some i
      · rw [if_pos hc]
        simp
      · rw [if_neg hc]
        by_cases hw0i : w0.id = i
        · rw [if_pos hw0i] at hwmin ⊢
          intro hfoc
          apply hc
          refine ⟨⟨w0, hw0, hw0i⟩, ?_⟩
          have hfoc2 : s.focusedWindowId = some w0.id := hfoc
          rw [hfoc2, hw0i]
        · rw [if_neg hw0i] at hwmin ⊢
          exact hmf w0 hw0 hwmin
    | setIsFullscreen i v =>
      intro w hw hwmin
      simp only [step, setIsFullscreen] at hw ⊢
      rcases List.mem_map.mp hw with ⟨w0, hw0, rfl⟩
      have hid : (if w0.id = i then { w0 with isFullscreen := v } else w0).id = w0.id := by
        split <;> rfl
      have hmin : (if w0.id = i then { w0 with isFullscreen := v } else w0).isMinimalize =
          w0.isMinimalize := by
        split <;> rfl
      rw [hmin] at hwmin
      rw [hid]
      exact hmf w0 hw0 hwmin
    | focus id =>
      cases id with
      | none =>
        intro w hw hwmin
        simp [step, handleSetFocusedWindowId, increaseZIndex]
      | some i =>
        intro w hw hwmin
        have hall : ∀ w' ∈ s.openedApps, w'.id = i → w'.isMinimalize = false := by
          intro w' hw' hwi
          have h2 := List.all_eq_true.mp hcond w' hw'
          simp [hwi] at h2
          exact h2
        simp only [step, handleSetFocusedWindowId, increaseZIndex] at hw ⊢
        by_cases hi : i = ""
        · rw [if_pos hi] at hw
          intro hfoc
          have hfoc2 : some i = some w.id := hfoc
          have hwi : w.id = i := by
            have := Option.some.inj hfoc2
            exact this.symm
          have := hall w hw hwi
          rw [this] at hwmin
          exact absurd hwmin (by simp)
        · rw [if_neg hi] at hw
          rcases List.mem_map.mp hw with ⟨w0, hw0, rfl⟩
          by_cases hw0i : w0.id = i
          · have hw0min := hall w0 hw0 hw0i
            rw [if_pos hw0i] at hwmin
            have hmin2 : w0.isMinimalize = true := hwmin
            rw [hw0min] at hmin2
            exact absurd hmin2 (by simp)
          · rw [if_neg hw0i]
            intro hfoc
            have hfoc2 : some i = some w0.id := hfoc
            exact hw0i (Option.some.inj hfoc2).symm

/-- A filter that keeps all members is the identity. -/
theorem filter_eq_self_of (p : WindowApp → Bool) :
    ∀ l : List WindowApp, (∀ a ∈ l, p a = true) → l.filter p = l := by
  intro l
  induction l with
  | nil => intro _; rfl
  | cons x t ih =>
    intro h
    rw [List.filter_cons, if_pos (h x (List.mem_cons_self x t)),
      ih (fun a ha => h a (List.mem_cons_of_mem x ha))]

/-- A list with exactly one id-match splits around its unique match. -/
theorem split_of_countP_one (i : String) :
    ∀ l : List WindowApp, l.countP (fun w => w.id == i) = 1 →
      ∃ l₁ w l₂, l = l₁ ++ w :: l₂ ∧ w.id = i ∧
        (∀ x ∈ l₁, x.id ≠ i) ∧ (∀ x ∈ l₂, x.id ≠ i) := by
  intro l
  induction l with
  | nil => intro h; simp [List.countP_nil] at h
  | cons x t ih =>
    intro h
    rw [List.countP_cons] at h
    by_cases hx : x.id = i
    · have hpx : (x.id == i) = true := beq_iff_eq.mpr hx
      rw [hpx] at h
      simp only [if_pos] at h
      have h0 : t.countP (fun w => w.id == i) = 0 := by omega
      have hnone := List.countP_eq_zero.mp h0
      refine ⟨[], x, t, rfl, hx, by simp, ?_⟩
      intro y hy hyi
      exact hnone y hy (beq_iff_eq.mpr hyi)
    · have hpx : (x.id == i) = false := by
        rw [Bool.eq_false_iff]
        intro hc
        exact hx (beq_iff_eq.mp hc)
      rw [hpx] at h
      simp only [Bool.false_eq_true, if_false, Nat.add_zero] at h
      rcases ih h with ⟨l₁, w, l₂, heq, hwi, h1, h2⟩
      refine ⟨x :: l₁, w, l₂, by rw [heq]; rfl, hwi, ?_, h2⟩
      intro y hy
      rcases List.mem_cons.mp hy with rfl | hy
      · exact hx
      · exact h1 y hy

/-- The registry after opening one calculator window on the empty state. -/
def stateAfterOpenCalc : RegistryState := run [Action.openApp WindowAppTypes.calculator]

/-! Claims. -/

/-- C1: for every sequence of openApp/focus actions from the empty registry,
the zIndex values assigned by the actions are pairwise strictly increasing in
order of assignment (each strictly above every earlier one), no two open
windows share a zIndex, and the "biggest zIndex" used for assignment is the
maximum zIndex over all open windows — an upper bound that is attained when
any window is open — or 0 when openedApps is empty. -/
theorem C1_zorder_monotonic (acts : List Action) (h : acts.all isOpenFocus = true) :
    (traceAssigned init acts).Pairwise (· < ·) ∧
    ((run acts).openedApps.map (fun w => w.zIndex)).Nodup ∧
    (∀ w ∈ (run acts).openedApps, w.zIndex ≤ getBiggestZIndex (run acts).openedApps) ∧
    ((run acts).openedApps ≠ [] →
      ∃ w ∈ (run acts).openedApps, getBiggestZIndex (run acts).openedApps = w.zIndex) ∧
    ((run acts).openedApps = [] → getBiggestZIndex (run acts).openedApps = 0) :=
  ⟨trace_pairwise acts init WF_init h,
   (WF_run acts).2.2,
   fun w hw => getBiggestZIndex_le _ w hw,
   getBiggestZIndex_attained _,
   fun he => by rw [he]; rfl⟩

/-- Witness for C1 at the concrete sequence open calculator, open tasks,
focus the calculator again. -/
theorem C1_zorder_monotonic_witness :
    ([Action.openApp WindowAppTypes.calculator, Action.openApp WindowAppTypes.tasks,
      Action.focus (some "a")].all isOpenFocus = true) ∧
    (traceAssigned init [Action.openApp WindowAppTypes.calculator,
      Action.openApp WindowAppTypes.tasks, Action.focus (some "a")]).Pairwise (· < ·) ∧
    ((run [Action.openApp WindowAppTypes.calculator, Action.openApp WindowAppTypes.tasks,
      Action.focus (some "a")]).openedApps.map (fun w => w.zIndex)).Nodup :=
  ⟨by decide,
   (C1_zorder_monotonic _ (by decide)).1,
   (C1_zorder_monotonic _ (by decide)).2.1⟩

/-- C7: the factory is deterministic per type — calculator yields
"Calculator" with minSize 420px×600px, tasks yields "Tasks" with 600px×420px,
other-app yields "Other App" with 420px×100px — always with both flags false
and zIndex one more than the current biggest, hence 1 on the empty
registry. -/
theorem C7_factory_determinism (s : RegistryState) :
    ((createApp WindowAppTypes.calculator s).displayName = "Calculator" ∧
     (createApp WindowAppTypes.calculator s).minSize = ⟨"420px", "600px"⟩ ∧
     (createApp WindowAppTypes.calculator s).isFullscreen = false ∧
     (createApp WindowAppTypes.calculator s).isMinimalize = false ∧
     (createApp WindowAppTypes.calculator s).zIndex = getBiggestZIndex s.openedApps + 1) ∧
    ((createApp WindowAppTypes.tasks s).displayName = "Tasks" ∧
     (createApp WindowAppTypes.tasks s).minSize = ⟨"600px", "420px"⟩ ∧
     (createApp WindowAppTypes.tasks s).isFullscreen = false ∧
     (createApp WindowAppTypes.tasks s).isMinimalize = false ∧
     (createApp WindowAppTypes.tasks s).zIndex = getBiggestZIndex s.openedApps + 1) ∧
    ((createApp WindowAppTypes.otherApp s).displayName = "Other App" ∧
     (createApp WindowAppTypes.otherApp s).minSize = ⟨"420px", "100px"⟩ ∧
     (createApp WindowAppTypes.otherApp s).isFullscreen = false ∧
     (createApp WindowAppTypes.otherApp s).isMinimalize = false ∧
     (createApp WindowAppTypes.otherApp s).zIndex = getBiggestZIndex s.openedApps + 1) ∧
    (createApp WindowAppTypes.calculator init).zIndex = 1 :=
  ⟨⟨rfl, rfl, rfl, rfl, rfl⟩, ⟨rfl, rfl, rfl, rfl, rfl⟩, ⟨rfl, rfl, rfl, rfl, rfl⟩, rfl⟩

/-- C10: reading the context outside a provider (context value null) raises
the error with the exact message, rather than returning a default; inside a
provider the context value is returned unchanged. -/
theorem C10_useApps_guard :
    useApps none = Except.error "useApps has to be used within <AppsContext.Provider>" ∧
    ∀ ctx : AppsContextValue, useApps (some ctx) = Except.ok ctx :=
  ⟨rfl, fun _ => rfl⟩

/-- C8: closeApp on a registry holding exactly one window with the given id
removes exactly that window — one fewer window, none left with that id, the
untouched entities preserved (the result is the original with the unique
match deleted) — and focusedWindowId stays exactly as it was, even if the
closed window was focused; closeAllApps empties openedApps and also leaves
focusedWindowId unchanged. -/
theorem C8_close_frame (s : RegistryState) (i : String)
    (h : s.openedApps.countP (fun w => w.id == i) = 1) :
    (closeApp i s).openedApps.length = s.openedApps.length - 1 ∧
    (∀ w ∈ (closeApp i s).openedApps, w.id ≠ i) ∧
    (∃ l₁ w l₂, s.openedApps = l₁ ++ w :: l₂ ∧ w.id = i ∧
      (closeApp i s).openedApps = l₁ ++ l₂) ∧
    (closeApp i s).focusedWindowId = s.focusedWindowId ∧
    (closeAllApps s).openedApps = [] ∧
    (closeAllApps s).focusedWindowId = s.focusedWindowId := by
  rcases split_of_countP_one i s.openedApps h with ⟨l₁, w, l₂, heq, hwi, h1, h2⟩
  have hwfalse : (w.id != i) = false := by simp [hwi]
  have hfilter : (closeApp i s).openedApps = l₁ ++ l₂ := by
    simp only [closeApp]
    rw [heq, List.filter_append, List.filter_cons, hwfalse]
    rw [filter_eq_self_of _ l₁ (fun a ha => bne_iff_ne.mpr (h1 a ha)),
      filter_eq_self_of _ l₂ (fun a ha => bne_iff_ne.mpr (h2 a ha))]
    simp
  refine ⟨?_, ?_, ⟨l₁, w, l₂, heq, hwi, hfilter⟩, rfl, rfl, rfl⟩
  · rw [hfilter, heq]
    simp [List.length_append]
  · intro w' hw'
    simp only [closeApp] at hw'
    rw [List.mem_filter] at hw'
    exact bne_iff_ne.mp hw'.2

/-- Witness for C8 on the one-window registry after opening a calculator. -/
theorem C8_close_frame_witness :
    (stateAfterOpenCalc.openedApps.countP (fun w => w.id == "a") = 1) ∧
    (closeApp "a" stateAfterOpenCalc).openedApps.length =
      stateAfterOpenCalc.openedApps.length - 1 ∧
    (∀ w ∈ (closeApp "a" stateAfterOpenCalc).openedApps, w.id ≠ "a") ∧
    (∃ l₁ w l₂, stateAfterOpenCalc.openedApps = l₁ ++ w :: l₂ ∧ w.id = "a" ∧
      (closeApp "a" stateAfterOpenCalc).openedApps = l₁ ++ l₂) ∧
    (closeApp "a" stateAfterOpenCalc).focusedWindowId =
      stateAfterOpenCalc.focusedWindowId ∧
    (closeAllApps stateAfterOpenCalc).openedApps = [] ∧
    (closeAllApps stateAfterOpenCalc).focusedWindowId =
      stateAfterOpenCalc.focusedWindowId := by
  have h : stateAfterOpenCalc.openedApps.countP (fun w => w.id == "a") = 1 := by decide
  rcases C8_close_frame stateAfterOpenCalc "a" h with ⟨c1, c2, c3, c4, c5, c6⟩
  exact ⟨h, c1, c2, c3, c4, c5, c6⟩

/-- C2 counterexample: on the registry with one focused calculator window
(id "a"), calling setIsMinimalize("a", false) — value false, id equal to
focusedWindowId — clears the focus, although the claim says focusedWindowId
is left unchanged in every case other than value true on the focused id. -/
theorem C2_unminimize_clears_focus_cex :
    stateAfterOpenCalc.focusedWindowId = some "a" ∧
    (setIsMinimalize "a" false stateAfterOpenCalc).focusedWindowId = none := by
  decide

/-- C2 (amended): setIsMinimalize(id, value) maps the flag onto every
matching window, and clears focusedWindowId exactly when id matches some
open window and id equals focusedWindowId — regardless of value; when id is
not the focused id, or matches no open window, focusedWindowId is
unchanged. -/
theorem C2_minimize_focus_rule (s : RegistryState) (i : String) (v : Bool) :
    (setIsMinimalize i v s).openedApps = s.openedApps.map (fun w =>
      if w.id = i then { w with isMinimalize := v } else w) ∧
    ((∃ w ∈ s.openedApps, w.id = i) ∧ s.focusedWindowId = some i →
      (setIsMinimalize i v s).focusedWindowId = none) ∧
    (s.focusedWindowId ≠ some i →
      (setIsMinimalize i v s).focusedWindowId = s.focusedWindowId) ∧
    ((∀ w ∈ s.openedApps, w.id ≠ i) →
      (setIsMinimalize i v s).focusedWindowId = s.focusedWindowId) := by
  refine ⟨rfl, ?_, ?_, ?_⟩
  · intro hc
    simp only [setIsMinimalize]
    rw [if_pos hc]
  · intro hne
    simp only [setIsMinimalize]
    rw [if_neg (fun hc => hne hc.2)]
  · intro habs
    simp only [setIsMinimalize]
    have hno : ¬((∃ w ∈ s.openedApps, w.id = i) ∧ s.focusedWindowId = some i) := by
      intro hc
      rcases hc.1 with ⟨w, hw, hwi⟩
      exact habs w hw hwi
    rw [if_neg hno]

/-- Witness for C2 (amended): minimizing an id that is not focused leaves
focus unchanged. -/
theorem C2_minimize_focus_rule_witness :
    stateAfterOpenCalc.focusedWindowId ≠ some "x" ∧
    (setIsMinimalize "x" true stateAfterOpenCalc).focusedWindowId =
      stateAfterOpenCalc.focusedWindowId :=
  ⟨by decide, (C2_minimize_focus_rule stateAfterOpenCalc "x" true).2.2.1 (by decide)⟩

/-- C3 counterexample: on the empty registry — where the id "x" is certainly
absent — focus("x") is not a no-op on focusedWindowId: it changes it from
null to "x". -/
theorem C3_focus_not_noop_cex :
    init.openedApps = [] ∧ init.focusedWindowId = none ∧
    (handleSetFocusedWindowId (some "x") init).focusedWindowId = some "x" :=
  ⟨rfl, rfl, rfl⟩

/-- C3 (amended): for an id matching no open window, closeApp,
setIsMinimalize and setIsFullscreen leave the whole state unchanged (and
raise no error, all operations being total); focus(id) leaves openedApps
unchanged but still sets focusedWindowId to the absent id. -/
theorem C3_absent_id_noop (s : RegistryState) (i : String) (v : Bool)
    (h : ∀ w ∈ s.openedApps, w.id ≠ i) :
    closeApp i s = s ∧ setIsMinimalize i v s = s ∧ setIsFullscreen i v s = s ∧
    (handleSetFocusedWindowId (some i) s).openedApps = s.openedApps ∧
    (handleSetFocusedWindowId (some i) s).focusedWindowId = some i := by
  refine ⟨?_, ?_, ?_, ?_, rfl⟩
  · simp only [closeApp]
    rw [filter_eq_self_of _ _ (fun w hw => bne_iff_ne.mpr (h w hw))]
  · simp only [setIsMinimalize]
    have h1 : s.openedApps.map (fun w => if w.id = i then { w with isMinimalize := v } else w)
        = s.openedApps := map_eq_self_of _ _ (fun w hw => if_neg (h w hw))
    have h2 : ¬((∃ w ∈ s.openedApps, w.id = i) ∧ s.focusedWindowId = some i) := by
      intro hc
      rcases hc.1 with ⟨w, hw, hwi⟩
      exact h w hw hwi
    rw [h1, if_neg h2]
  · simp only [setIsFullscreen]
    rw [map_eq_self_of _ _ (fun w hw => if_neg (h w hw))]
  · simp only [handleSetFocusedWindowId, increaseZIndex]
    by_cases hi : i = ""
    · rw [if_pos hi]
    · rw [if_neg hi]
      exact map_eq_self_of _ _ (fun w hw => if_neg (h w hw))

/-- Witness for C3 (amended) with the absent id "x" on the one-calculator
registry. -/
theorem C3_absent_id_noop_witness :
    (∀ w ∈ stateAfterOpenCalc.openedApps, w.id ≠ "x") ∧
    closeApp "x" stateAfterOpenCalc = stateAfterOpenCalc ∧
    setIsMinimalize "x" true stateAfterOpenCalc = stateAfterOpenCalc ∧
    setIsFullscreen "x" true stateAfterOpenCalc = stateAfterOpenCalc ∧
    (handleSetFocusedWindowId (some "x") stateAfterOpenCalc).openedApps =
      stateAfterOpenCalc.openedApps ∧
    (handleSetFocusedWindowId (some "x") stateAfterOpenCalc).focusedWindowId = some "x" := by
  have h : ∀ w ∈ stateAfterOpenCalc.openedApps, w.id ≠ "x" := by decide
  rcases C3_absent_id_noop stateAfterOpenCalc "x" true h with ⟨c1, c2, c3, c4, c5⟩
  exact ⟨h, c1, c2, c3, c4, c5⟩

/-- A registry state holding one window whose id is the empty string: the
state is expressible in the registry's types, and JavaScript falsiness makes
the `if (!id)` guard of increaseZIndex treat focus("") like focus(null). -/
def emptyIdWin : WindowApp :=
  { id := "", type := WindowAppTypes.calculator, isFullscreen := false,
    isMinimalize := false, zIndex := 0, iconSrc := "", displayName := "",
    minSize := { width := "", height := "" } }

/-- The registry state holding only the empty-id window. -/
def emptyIdState : RegistryState :=
  { openedApps := [emptyIdWin], focusedWindowId := none, nextId := 0 }

/-- C6 counterexample: focus("") — a non-null id — on a state with a window
whose id is "" sets focusedWindowId to "" but leaves the matching window's
zIndex at 0 instead of raising it to biggest + 1 = 1, because the source's
`if (!id) return` tests JS falsiness, not only null. -/
theorem C6_empty_string_cex :
    (some "" : Option String) ≠ none ∧
    emptyIdState.openedApps.map (fun w => w.zIndex) = [0] ∧
    getBiggestZIndex emptyIdState.openedApps + 1 = 1 ∧
    ((handleSetFocusedWindowId (some "") emptyIdState).openedApps.map (fun w => w.zIndex))
      = [0] ∧
    (handleSetFocusedWindowId (some "") emptyIdState).focusedWindowId = some "" := by
  refine ⟨by simp, rfl, rfl, rfl, rfl⟩

/-- C6 (amended): focus(id) with a non-null, non-empty id rewrites every
matching window's zIndex to biggest + 1 (re-assigning even if that window
already holds the maximum) and sets focusedWindowId to the id; focus(null)
clears focus and changes no zIndex; focus("") also changes no zIndex but
still sets focusedWindowId to "". -/
theorem C6_focus_spec (s : RegistryState) (i : String) :
    (i ≠ "" → handleSetFocusedWindowId (some i) s =
      { openedApps := s.openedApps.map (fun w =>
          if w.id = i then { w with zIndex := getBiggestZIndex s.openedApps + 1 } else w),
        focusedWindowId := some i,
        nextId := s.nextId }) ∧
    handleSetFocusedWindowId none s =
      { openedApps := s.openedApps, focusedWindowId := none, nextId := s.nextId } ∧
    handleSetFocusedWindowId (some "") s =
      { openedApps := s.openedApps, focusedWindowId := some "", nextId := s.nextId } := by
  refine ⟨?_, rfl, ?_⟩
  · intro hi
    simp only [handleSetFocusedWindowId, increaseZIndex]
    rw [if_neg hi]
  · simp [handleSetFocusedWindowId, increaseZIndex]

/-- Witness for C6 (amended) at the non-empty id "x" on the empty registry. -/
theorem C6_focus_spec_witness :
    ("x" : String) ≠ "" ∧
    handleSetFocusedWindowId (some "x") init =
      { openedApps := init.openedApps.map (fun w =>
          if w.id = "x" then { w with zIndex := getBiggestZIndex init.openedApps + 1 } else w),
        focusedWindowId := some "x", nextId := init.nextId } :=
  ⟨by decide, (C6_focus_spec init "x").1 (by decide)⟩

/-- C4 counterexample: the single action focus("x") from the empty registry
leaves a non-null focusedWindowId that refers to no open window (openedApps
is empty). -/
theorem C4_dangling_focus_cex :
    (run [Action.focus (some "x")]).focusedWindowId = some "x" ∧
    (run [Action.focus (some "x")]).openedApps = [] :=
  ⟨rfl, rfl⟩

/-- C4 (amended): after any sequence of registry actions from the empty
registry, at most one open window's id equals focusedWindowId; and provided
every focus call targets a then-open window, no closeApp targets the
then-focused window, and closeAllApps runs only with focus already null, a
non-null focusedWindowId always refers to an open window. -/
theorem C4_focus_invariant (acts : List Action) :
    ((run acts).openedApps.countP
      (fun w => (run acts).focusedWindowId == some w.id) ≤ 1) ∧
    (focusSafe init acts = true →
      ∀ i, (run acts).focusedWindowId = some i →
        ∃ w ∈ (run acts).openedApps, w.id = i) := by
  refine ⟨countP_focus_le_one (run acts) (WF_run acts).2.1, ?_⟩
  intro h
  refine focusOk_runFrom acts init WF_init ?_ h
  intro i hi
  simp [init] at hi

/-- Witness for C4 (amended) at the single-action sequence opening a
calculator. -/
theorem C4_focus_invariant_witness :
    ((run [Action.openApp WindowAppTypes.calculator]).openedApps.countP
      (fun w => (run [Action.openApp WindowAppTypes.calculator]).focusedWindowId
        == some w.id) ≤ 1) ∧
    (focusSafe init [Action.openApp WindowAppTypes.calculator] = true) ∧
    (∀ i, (run [Action.openApp WindowAppTypes.calculator]).focusedWindowId = some i →
      ∃ w ∈ (run [Action.openApp WindowAppTypes.calculator]).openedApps, w.id = i) :=
  ⟨(C4_focus_invariant _).1, by decide, (C4_focus_invariant _).2 (by decide)⟩

/-- The calculator window as it stands after open, minimize, focus-by-id:
still minimized, zIndex raised to 2. -/
def minimizedFocusedWin : WindowApp :=
  { id := "a", type := WindowAppTypes.calculator, isFullscreen := false,
    isMinimalize := true, zIndex := 2, iconSrc := "./calc-icon.png",
    displayName := "Calculator", minSize := { width := "420px", height := "600px" } }

/-- The calculator window after open and minimize (zIndex still 1). -/
def minimizedCalcWin : WindowApp :=
  { id := "a", type := WindowAppTypes.calculator, isFullscreen := false,
    isMinimalize := true, zIndex := 1, iconSrc := "./calc-icon.png",
    displayName := "Calculator", minSize := { width := "420px", height := "600px" } }

/-- C5 counterexample: open a calculator, minimize it, then focus it by id —
all registry actions — and the resulting state has a minimized window that
is the focused window. -/
theorem C5_minimized_focus_cex :
    (run [Action.openApp WindowAppTypes.calculator, Action.setIsMinimalize "a" true,
      Action.focus (some "a")]).openedApps = [minimizedFocusedWin] ∧
    minimizedFocusedWin.isMinimalize = true ∧
    (run [Action.openApp WindowAppTypes.calculator, Action.setIsMinimalize "a" true,
      Action.focus (some "a")]).focusedWindowId = some minimizedFocusedWin.id := by
  refine ⟨by decide, rfl, by decide⟩

/-- C5 (amended): in every state reachable from the empty registry by
registry actions among which no focus call targets the id of a
then-minimized window, no minimized window is the focused window. -/
theorem C5_minimized_never_focused (acts : List Action)
    (h : noFocusMinimized init acts = true) :
    ∀ w ∈ (run acts).openedApps, w.isMinimalize = true →
      (run acts).focusedWindowId ≠ some w.id := by
  refine minFree_runFrom acts init WF_init ?_ h
  intro w hw
  simp [init] at hw

/-- Witness for C5 (amended): after open and minimize, the minimized
calculator is not focused. -/
theorem C5_minimized_never_focused_witness :
    (noFocusMinimized init [Action.openApp WindowAppTypes.calculator,
      Action.setIsMinimalize "a" true] = true) ∧
    (run [Action.openApp WindowAppTypes.calculator,
      Action.setIsMinimalize "a" true]).focusedWindowId ≠ some "a" := by
  refine ⟨by decide, ?_⟩
  have hmem : minimizedCalcWin ∈ (run [Action.openApp WindowAppTypes.calculator,
      Action.setIsMinimalize "a" true]).openedApps := by decide
  exact C5_minimized_never_focused
    [Action.openApp WindowAppTypes.calculator, Action.setIsMinimalize "a" true]
    (by decide) minimizedCalcWin hmem rfl

/-- A non-empty, non-null focus call in closed form: raise every matching
window to biggest + 1 and set the focus. -/
theorem handleSetFocused_some_eq (s : RegistryState) (i : String) (hi : i ≠ "") :
    handleSetFocusedWindowId (some i) s =
      { openedApps := s.openedApps.map (fun x =>
          if x.id = i then { x with zIndex := getBiggestZIndex s.openedApps + 1 } else x),
        focusedWindowId := some i, nextId := s.nextId } := by
  simp only [handleSetFocusedWindowId, increaseZIndex]
  rw [if_neg hi]

/-- C9: the dispatcher's minimize-toggle gesture on a taskbar entry for an
open window, expressed through the primitive actions: a minimized window is
un-minimized, raised to biggest + 1 and focused; the focused (un-minimized)
window is minimized and focus is cleared; any other window is raised to
biggest + 1 and focused with its minimize flag untouched. -/
theorem C9_dispatcher_toggle (s : RegistryState) (w : WindowApp)
    (_hw : w ∈ s.openedApps) (hid : w.id ≠ "") :
    (w.isMinimalize = true →
      minimalizedAppOnClick w.id w.isMinimalize s =
        { openedApps := s.openedApps.map (fun x =>
            if x.id = w.id then
              { x with isMinimalize := false,
                       zIndex := getBiggestZIndex s.openedApps + 1 }
            else x),
          focusedWindowId := some w.id,
          nextId := s.nextId }) ∧
    (w.isMinimalize = false → s.focusedWindowId = some w.id →
      minimalizedAppOnClick w.id w.isMinimalize s =
        { openedApps := s.openedApps.map (fun x =>
            if x.id = w.id then { x with isMinimalize := true } else x),
          focusedWindowId := none,
          nextId := s.nextId }) ∧
    (w.isMinimalize = false → s.focusedWindowId ≠ some w.id →
      minimalizedAppOnClick w.id w.isMinimalize s =
        { openedApps := s.openedApps.map (fun x =>
            if x.id = w.id then { x with zIndex := getBiggestZIndex s.openedApps + 1 }
            else x),
          focusedWindowId := some w.id,
          nextId := s.nextId }) := by
  refine ⟨?_, ?_, ?_⟩
  · intro hmin
    rw [hmin]
    have h1 : minimalizedAppOnClick w.id true s =
        handleSetFocusedWindowId (some w.id) (setIsMinimalize w.id false s) := by
      simp [minimalizedAppOnClick]
    have hb : getBiggestZIndex (setIsMinimalize w.id false s).openedApps =
        getBiggestZIndex s.openedApps :=
      getBiggestZIndex_map _ (fun x => by split <;> rfl) s.openedApps
    have ha : (setIsMinimalize w.id false s).openedApps = s.openedApps.map
        (fun x => if x.id = w.id then { x with isMinimalize := false } else x) := rfl
    rw [h1, handleSetFocused_some_eq _ _ hid, hb, ha, List.map_map]
    congr 1
    refine List.map_congr_left ?_
    intro x _
    by_cases hx : x.id = w.id <;> simp [Function.comp, hx]
  · intro hmin hfoc
    rw [hmin]
    have h1 : minimalizedAppOnClick w.id false s =
        handleSetFocusedWindowId none (setIsMinimalize w.id true s) := by
      simp [minimalizedAppOnClick, hfoc]
    rw [h1]
    rfl
  · intro hmin hfoc
    rw [hmin]
    have h1 : minimalizedAppOnClick w.id false s =
        handleSetFocusedWindowId (some w.id) s := by
      simp [minimalizedAppOnClick, hfoc]
    rw [h1, handleSetFocused_some_eq _ _ hid]

/-- The calculator window as it sits in the registry right after opening. -/
def calcWin0mem : WindowApp :=
  { id := "a", type := WindowAppTypes.calculator, isFullscreen := false,
    isMinimalize := false, zIndex := 1, iconSrc := "./calc-icon.png",
    displayName := "Calculator", minSize := { width := "420px", height := "600px" } }

/-- Witness for C9: clicking the taskbar entry of the focused, un-minimized
calculator minimizes it and clears focus. -/
theorem C9_dispatcher_toggle_witness :
    calcWin0mem ∈ stateAfterOpenCalc.openedApps ∧ calcWin0mem.id ≠ "" ∧
    calcWin0mem.isMinimalize = false ∧
    stateAfterOpenCalc.focusedWindowId = some calcWin0mem.id ∧
    minimalizedAppOnClick calcWin0mem.id calcWin0mem.isMinimalize stateAfterOpenCalc =
      { openedApps := stateAfterOpenCalc.openedApps.map (fun x =>
          if x.id = calcWin0mem.id then { x with isMinimalize := true } else x),
        focusedWindowId := none,
        nextId := stateAfterOpenCalc.nextId } := by
  have hmem : calcWin0mem ∈ stateAfterOpenCalc.openedApps := by decide
  have hid : calcWin0mem.id ≠ "" := by decide
  have hfoc : stateAfterOpenCalc.focusedWindowId = some calcWin0mem.id := by decide
  exact ⟨hmem, hid, rfl, hfoc,
    (C9_dispatcher_toggle stateAfterOpenCalc calcWin0mem hmem hid).2.1 rfl hfoc⟩

end CalcApp
